import Mathlib

/-!
Shallow embedding of the `repo info` subcommand (`subcmds/info.py`):
the divergence analyzer (`findRemoteLocalDiff`), the local-branch lister
(`localBranches`), the per-project report (`printLocalInfo`) and the
cross-project overview (`printOverview`), together with the Python string
primitives (`str.split`, `str.strip`, `str.splitlines`, `string.join`,
substring test) that the code relies on.
-/

/-- Python whitespace characters, as used by `str.split()` / `str.strip()`. -/
def pyIsSpace (c : Char) : Bool :=
  c = ' ' || c = '\t' || c = '\n' || c = '\r' || c = '\x0b' || c = '\x0c'

/-- Accumulator worker for `str.split()`: `acc` holds the (reversed) current
token; whitespace flushes it, other characters extend it. -/
def splitWsAux : List Char → List Char → List (List Char)
  | [], acc => if acc = [] then [] else [acc.reverse]
  | c :: cs, acc =>
    if pyIsSpace c then
      if acc = [] then splitWsAux cs []
      else acc.reverse :: splitWsAux cs []
    else splitWsAux cs (c :: acc)

/-- Python `str.split()` (no separator argument) at the character-list level:
tokens are the maximal runs of non-whitespace characters. -/
def splitWs (l : List Char) : List (List Char) :=
  splitWsAux l []

/-- Python `' '.join` / `string.join` (default separator) at the
character-list level. -/
def joinWs : List (List Char) → List Char
  | [] => []
  | [t] => t
  | t :: ts => t ++ ' ' :: joinWs ts

/-- Whether a character list contains two adjacent whitespace characters. -/
def hasWsRun : List Char → Bool
  | a :: b :: t => (pyIsSpace a && pyIsSpace b) || hasWsRun (b :: t)
  | _ => false

/-- Accumulator worker for Python `str.splitlines()`: splits at `\r\n`,
`\r` and `\n`, with no trailing empty line for a trailing terminator. -/
def splitlinesAux : List Char → List Char → List (List Char)
  | [], acc => if acc = [] then [] else [acc.reverse]
  | '\r' :: '\n' :: rest, acc => acc.reverse :: splitlinesAux rest []
  | '\r' :: rest, acc => acc.reverse :: splitlinesAux rest []
  | '\n' :: rest, acc => acc.reverse :: splitlinesAux rest []
  | c :: rest, acc => splitlinesAux rest (c :: acc)

/-- Python `str.splitlines()`. -/
def splitlines (s : String) : List String :=
  (splitlinesAux s.data []).map String.mk

/-- Python `str.split()` on strings. -/
def pySplit (s : String) : List String :=
  (splitWs s.data).map String.mk

/-- Python `str.strip()`: drop leading and trailing whitespace. -/
def pyStrip (s : String) : String :=
  String.mk (((s.data.dropWhile pyIsSpace).reverse.dropWhile pyIsSpace).reverse)

/-- Python `string.join(words)` with the default single-space separator. -/
def joinSpace : List String → String
  | [] => ""
  | [t] => t
  | t :: ts => t ++ " " ++ joinSpace ts

/-- Python `str.replace('*', '')`: remove every asterisk. -/
def removeStars (s : String) : String :=
  String.mk (s.data.filter (fun c => c ≠ '*'))

/-- Scan for the two-character marker `->` (Python `"->" in line`). -/
def hasArrowAux : List Char → Bool
  | '-' :: '>' :: _ => true
  | _ :: rest => hasArrowAux rest
  | [] => false

/-- Python `"->" in line`: the symbolic-ref marker test of
`findRemoteLocalDiff`. -/
def containsArrow (s : String) : Bool :=
  hasArrowAux s.data

/-- One styled output event sent to the report renderer (the `Coloring`
printers bound in `Execute`). -/
inductive Out where
  | heading (s : String)
  | headtext (s : String)
  | redtext (s : String)
  | sha (s : String)
  | text (s : String)
  | dimtext (s : String)
  | nl
deriving DecidableEq, Repr

/-- Runtime failures the embedded code can raise: `NoSuchProjectError`
from `GetProjects`, and Python `IndexError` from `split[0]` on a line
with no tokens. -/
inductive RepoError where
  | noSuchProject
  | indexError
deriving DecidableEq, Repr

/-- Result of one `GitCommand` run: exit status (`Wait()`) and captured
stdout. -/
structure GitResult where
  status : Int
  stdout : String
deriving DecidableEq, Repr

/-- A project as consumed by `printLocalInfo` / `findRemoteLocalDiff`:
its identifying attributes plus its version-control query adapter
(`GitCommand(project, args)` ↦ `git project args`). -/
structure Project where
  name : String
  worktree : String
  revisionExpr : String
  git : List String → GitResult

/-- Rendering of one commit line in `findRemoteLocalDiff`:
`split = c.split(); self.sha(split[0] + " "); self.text(string.join(split[1:]))`.
`split[0]` on an empty split raises `IndexError`. -/
def renderCommit (c : String) : Except RepoError (List Out) :=
  match pySplit c with
  | [] => Except.error RepoError.indexError
  | h :: rest => Except.ok [Out.sha (h ++ " "), Out.text (joinSpace rest), Out.nl]

/-- Sequential rendering of the commit lines of one log query in
`findRemoteLocalDiff`; the first malformed line aborts with `IndexError`. -/
def renderCommits : List String → Except RepoError (List Out)
  | [] => Except.ok []
  | c :: cs =>
    match renderCommit c, renderCommits cs with
    | Except.ok o, Except.ok os => Except.ok (o ++ os)
    | Except.error e, _ => Except.error e
    | Except.ok _, Except.error e => Except.error e

/-- The data computed by `findRemoteLocalDiff` before rendering. -/
structure DivergenceResult where
  logTarget : String
  localCommits : List String
  originCommits : List String
deriving DecidableEq, Repr

/-- `Info.localBranches`: run `git branch`, and for each stdout line append
`line.replace('*','').strip()`. -/
def localBranches (project : Project) : List String :=
  let gc := project.git ["branch"]
  (splitlines gc.stdout).foldl (fun acc line => acc ++ [pyStrip (removeStars line)]) []

/-- The printing section of `findRemoteLocalDiff` (lines 145-167): headings,
counts, local commit lines, separator, then remote commit lines. An
`IndexError` while rendering the local list prevents everything after it. -/
def renderDiffReport (localCommits originCommits : List String) :
    Except RepoError (List Out) :=
  match renderCommits localCommits, renderCommits originCommits with
  | Except.ok localOut, Except.ok originOut =>
    Except.ok ([Out.heading "Local Commits: ", Out.redtext (toString localCommits.length),
                Out.dimtext " (on current branch)", Out.nl]
               ++ localOut
               ++ [Out.text "----------------------------", Out.nl,
                   Out.heading "Remote Commits: ", Out.redtext (toString originCommits.length),
                   Out.nl]
               ++ originOut)
  | Except.error e, _ => Except.error e
  | Except.ok _, Except.error e => Except.error e

/-- `Info.findRemoteLocalDiff`: fetch all remotes (result ignored), list
remote branches, pick the log target, run both range queries, then render.
Returns the issued command trace, the computed data, and the rendering
outcome (`IndexError` aborts it). -/
def findRemoteLocalDiff (project : Project) :
    List (List String) × DivergenceResult × Except RepoError (List Out) :=
  let fetchCmd := ["fetch", "--all"]
  let _fetch := project.git fetchCmd
  let branchCmd := ["branch", "-r"]
  let gc := project.git branchCmd
  let isOnBranch := (splitlines gc.stdout).any (fun line => containsArrow line)
  let logTarget := if isOnBranch then "origin/" ++ project.revisionExpr else project.revisionExpr
  let localCmd := ["log", "--pretty=oneline", logTarget ++ ".."]
  let gcl := project.git localCmd
  let localCommits := (splitlines gcl.stdout).foldl (fun acc line => acc ++ [line]) []
  let remoteCmd := ["log", "--pretty=oneline", ".." ++ logTarget]
  let gcr := project.git remoteCmd
  let originCommits := (splitlines gcr.stdout).foldl (fun acc line => acc ++ [line]) []
  ([fetchCmd, branchCmd, localCmd, remoteCmd],
   { logTarget := logTarget, localCommits := localCommits, originCommits := originCommits },
   renderDiffReport localCommits originCommits)

/-- The per-project block emitted by `printLocalInfo` (headings, branch
list, and — with `-a` — the divergence report). -/
def projectBlock (showAll : Bool) (p : Project) : Except RepoError (List Out) :=
  let lbs := localBranches p
  let base := [Out.heading "Project: ", Out.headtext p.name, Out.nl,
               Out.heading "Mount path: ", Out.headtext p.worktree, Out.nl,
               Out.heading "Current revision: ", Out.headtext p.revisionExpr, Out.nl,
               Out.heading "Local Branches: ", Out.redtext (toString lbs.length),
               Out.text " [", Out.text (String.intercalate ", " lbs), Out.text "]", Out.nl]
  if showAll then
    match (findRemoteLocalDiff p).2.2 with
    | Except.ok d => Except.ok (base ++ d)
    | Except.error e => Except.error e
  else Except.ok base

/-- The loop body of `printLocalInfo` over the resolved projects. -/
def localInfoBlocks (showAll : Bool) : List Project → Except RepoError (List Out)
  | [] => Except.ok []
  | p :: ps =>
    match projectBlock showAll p, localInfoBlocks showAll ps with
    | Except.ok b, Except.ok r => Except.ok (b ++ r)
    | Except.error e, _ => Except.error e
    | Except.ok _, Except.error e => Except.error e

/-- `Info.printLocalInfo`: `GetProjects` failure (`NoSuchProjectError`,
modelled as `none`) is caught and the method returns with no output. -/
def printLocalInfo (resolved : Option (List Project)) (showAll : Bool) :
    Except RepoError (List Out) :=
  match resolved with
  | none => Except.ok []
  | some projs => localInfoBlocks showAll projs

/-- The identity-bearing attributes of a project as used by the overview:
`branch.project` back-references compare by object identity, represented
by a unique `pid`. -/
structure ProjInfo where
  pid : Nat
  relpath : String
  currentBranch : Option String
deriving DecidableEq, Repr

/-- An uploadable branch as returned by `project.GetUploadableBranch`:
name, owning project, commit lines and date. -/
structure OvBranch where
  name : String
  project : ProjInfo
  commits : List String
  date : String
deriving DecidableEq, Repr

/-- A project as consumed by `printOverview`: its identity, the keys of
`GetBranches()` in enumeration order, and `GetUploadableBranch`. -/
structure OvProject where
  info : ProjInfo
  branchNames : List String
  uploadable : String → Option OvBranch

/-- Left-justified padding, Python `'%-33s' % s`. -/
def padRight (s : String) (w : Nat) : String :=
  s ++ String.mk (List.replicate (w - s.length) ' ')

/-- Right-justified padding, Python `'%2d' % n`. -/
def padLeft (s : String) (w : Nat) : String :=
  String.mk (List.replicate (w - s.length) ' ') ++ s

/-- The branch summary line of `printOverview`:
`'%s %-33s (%2d commit%s, %s)'`. -/
def branchLine (b : OvBranch) : String :=
  (if b.project.currentBranch = some b.name then "*" else " ") ++ " " ++
  padRight b.name 33 ++ " (" ++ padLeft (toString b.commits.length) 2 ++ " commit" ++
  (if b.commits.length ≠ 1 then "s" else " ") ++ ", " ++ b.date ++ ")"

/-- The indentation prefix `'{0:38}{1} '.format('','-')` of overview
commit lines. -/
def dashIndent : String :=
  String.mk (List.replicate 38 ' ') ++ "- "

/-- Rendering of one commit line in `printOverview`; `split[0]` on an
empty split raises `IndexError`. -/
def renderOvCommit (commit : String) : Except RepoError (List Out) :=
  match pySplit commit with
  | [] => Except.error RepoError.indexError
  | h :: rest =>
    Except.ok [Out.text dashIndent, Out.sha (h ++ " "), Out.text (joinSpace rest), Out.nl]

/-- Sequential rendering of a branch's commit lines in `printOverview`. -/
def renderOvCommits : List String → Except RepoError (List Out)
  | [] => Except.ok []
  | c :: cs =>
    match renderOvCommit c, renderOvCommits cs with
    | Except.ok o, Except.ok os => Except.ok (o ++ os)
    | Except.error e, _ => Except.error e
    | Except.ok _, Except.error e => Except.error e

/-- The `br` computation of `printOverview` for one project: map
`GetUploadableBranch` over the branch registry keys, keep the non-`None`
results, and with `-b` keep only the current branch. -/
def projBranchList (p : OvProject) (currentBranchOnly : Bool) : List OvBranch :=
  let br := (p.branchNames.map p.uploadable).filterMap id
  if currentBranchOnly then
    br.filter (fun x => decide (p.info.currentBranch = some x.name))
  else br

/-- The `all` list of `printOverview`: per-project branch lists
concatenated in project order (`all.extend(br)`). -/
def overviewBranches (projs : List OvProject) (currentBranchOnly : Bool) : List OvBranch :=
  projs.foldl (fun acc p => acc ++ projBranchList p currentBranchOnly) []

/-- The rendering loop of `printOverview`: `project` starts as `None` and
a header is emitted whenever the owning project changes. -/
def ovLoop : Option ProjInfo → List OvBranch → Except RepoError (List Out)
  | _, [] => Except.ok []
  | tracker, b :: rest =>
    let hdr := if tracker ≠ some b.project then
                 [Out.nl, Out.headtext b.project.relpath, Out.nl]
               else []
    match renderOvCommits b.commits, ovLoop (some b.project) rest with
    | Except.ok cl, Except.ok r =>
      Except.ok (hdr ++ [Out.text (branchLine b), Out.nl] ++ cl ++ r)
    | Except.error e, _ => Except.error e
    | Except.ok _, Except.error e => Except.error e

/-- `Info.printOverview`: `GetProjects` failure (modelled as `none`) is
not caught here and propagates; an empty `all` list returns with no
output; otherwise the heading and the grouped branch report are emitted. -/
def printOverview (resolved : Option (List OvProject)) (currentBranchOnly : Bool) :
    Except RepoError (List Out) :=
  match resolved with
  | none => Except.error RepoError.noSuchProject
  | some projs =>
    let all := overviewBranches projs currentBranchOnly
    if all = [] then Except.ok []
    else
      match ovLoop none all with
      | Except.ok body => Except.ok (Out.nl :: Out.heading "Projects Overview" :: body)
      | Except.error e => Except.error e

/-- The project headers (`headtext` events) of an output sequence. -/
def headtexts (l : List Out) : List String :=
  l.filterMap (fun o => match o with | Out.headtext s => some s | _ => none)

/-- The header names `ovLoop` emits from a given tracker state. -/
def headerSeq : Option ProjInfo → List OvBranch → List String
  | _, [] => []
  | tracker, b :: rest =>
    (if tracker ≠ some b.project then [b.project.relpath] else []) ++
    headerSeq (some b.project) rest

/-- A project whose branch query returns the name `dev` twice. -/
def dupProject : Project where
  name := "dup"
  worktree := "/src/dup"
  revisionExpr := "main"
  git := fun args =>
    if args = ["branch"] then { status := 0, stdout := "* master\n  dev\n  dev" }
    else { status := 0, stdout := "" }

/-- Adapter shared by the two fetch-scenario projects: identical answers
for every query, including a symbolic-ref line for `branch -r`. -/
def baseGitFetch : List String → GitResult := fun args =>
  if args = ["branch", "-r"] then
    { status := 0, stdout := "  origin/HEAD -> origin/main\n  origin/main" }
  else if args = ["log", "--pretty=oneline", "origin/main.."] then
    { status := 0, stdout := "abc local fix" }
  else if args = ["log", "--pretty=oneline", "..origin/main"] then
    { status := 0, stdout := "def remote fix" }
  else { status := 0, stdout := "" }

/-- A project whose fetch succeeds. -/
def projFetchOk : Project :=
  { name := "proj", worktree := "/src/proj", revisionExpr := "main", git := baseGitFetch }

/-- The same project except that `git fetch --all` fails with status 128. -/
def projFetchFail : Project where
  name := "proj"
  worktree := "/src/proj"
  revisionExpr := "main"
  git := fun args =>
    if args = ["fetch", "--all"] then { status := 128, stdout := "" } else baseGitFetch args

/-- A project whose local range query returns an empty line between two
commit lines (e.g. from unexpected subprocess output). -/
def projBlankLine : Project where
  name := "p4"
  worktree := "/src/p4"
  revisionExpr := "rev"
  git := fun args =>
    if args = ["log", "--pretty=oneline", "rev.."] then
      { status := 0, stdout := "aaa fix\n\nbbb more" }
    else { status := 0, stdout := "" }

/-- Helper: a foldl that appends one transformed element per step is a map. -/
theorem foldl_append_map {α β : Type} (f : α → β) (l : List α) :
    ∀ acc : List β, l.foldl (fun a x => a ++ [f x]) acc = acc ++ l.map f := by
  induction l with
  | nil => intro acc; simp
  | cons x xs ih => intro acc; simp [ih, List.append_assoc]

/-- Helper: a foldl that appends each element unchanged is the identity. -/
theorem foldl_append_id {α : Type} (l : List α) :
    l.foldl (fun acc x => acc ++ [x]) [] = l := by
  have h := foldl_append_map (fun x => x) l []
  simpa using h

/-- C1: in `findRemoteLocalDiff`, if any line of the `git branch -r` listing
contains the marker `->` the comparison target is `"origin/" ++ revisionExpr`,
otherwise the bare `revisionExpr`; that target is the one used in both
range queries issued. -/
theorem info_logTarget_selection (p : Project) :
    (findRemoteLocalDiff p).2.1.logTarget =
      (if (splitlines (p.git ["branch", "-r"]).stdout).any (fun line => containsArrow line)
       then "origin/" ++ p.revisionExpr else p.revisionExpr) ∧
    (findRemoteLocalDiff p).1 =
      [["fetch", "--all"], ["branch", "-r"],
       ["log", "--pretty=oneline", (findRemoteLocalDiff p).2.1.logTarget ++ ".."],
       ["log", "--pretty=oneline", ".." ++ (findRemoteLocalDiff p).2.1.logTarget]] :=
  ⟨rfl, rfl⟩

/-- C2: `localCommits` is exactly the line list of the `logTarget..` query
output and `originCommits` exactly that of the `..logTarget` query output,
in query order. -/
theorem info_commit_ranges (p : Project) :
    (findRemoteLocalDiff p).2.1.localCommits =
      splitlines (p.git ["log", "--pretty=oneline",
        (findRemoteLocalDiff p).2.1.logTarget ++ ".."]).stdout ∧
    (findRemoteLocalDiff p).2.1.originCommits =
      splitlines (p.git ["log", "--pretty=oneline",
        ".." ++ (findRemoteLocalDiff p).2.1.logTarget]).stdout :=
  ⟨foldl_append_id _, foldl_append_id _⟩

/-- C3: the fetch step's result is never consulted: two projects that agree
on everything except the answer to `fetch --all` produce identical analyses,
and the branch listing plus both range queries appear in the trace always. -/
theorem info_fetch_failure_harmless (p₁ p₂ : Project)
    (hrev : p₁.revisionExpr = p₂.revisionExpr)
    (hgit : ∀ args, args ≠ ["fetch", "--all"] → p₁.git args = p₂.git args) :
    findRemoteLocalDiff p₁ = findRemoteLocalDiff p₂ ∧
    (findRemoteLocalDiff p₁).1 =
      [["fetch", "--all"], ["branch", "-r"],
       ["log", "--pretty=oneline", (findRemoteLocalDiff p₁).2.1.logTarget ++ ".."],
       ["log", "--pretty=oneline", ".." ++ (findRemoteLocalDiff p₁).2.1.logTarget]] := by
  have hb : p₁.git ["branch", "-r"] = p₂.git ["branch", "-r"] := hgit _ (by decide)
  have hlog : ∀ t : String,
      p₁.git ["log", "--pretty=oneline", t] = p₂.git ["log", "--pretty=oneline", t] := by
    intro t
    refine hgit _ ?_
    intro h
    injection h with h1 _
    exact absurd h1 (by decide)
  refine ⟨?_, rfl⟩
  simp only [findRemoteLocalDiff, hb, hrev, hlog]

/-- Closed instance for C3: a failing fetch yields the same analysis as a
successful one. -/
theorem info_fetch_failure_harmless_witness :
    findRemoteLocalDiff projFetchFail = findRemoteLocalDiff projFetchOk :=
  (info_fetch_failure_harmless projFetchFail projFetchOk rfl
    (fun args h => by simp [projFetchFail, projFetchOk, h])).1

/-- C5: `localBranches` maps each line of the `git branch` output to that
line with all `*` removed and surrounding whitespace stripped, in query
order; duplicates survive, as the concrete `dupProject` run shows. -/
theorem info_localBranches_spec :
    (∀ p : Project, localBranches p =
      (splitlines (p.git ["branch"]).stdout).map (fun line => pyStrip (removeStars line))) ∧
    localBranches dupProject = ["master", "dev", "dev"] := by
  constructor
  · intro p
    have h := foldl_append_map (fun line => pyStrip (removeStars line))
      (splitlines (p.git ["branch"]).stdout) []
    simpa using h
  · rfl

/-- Counterexample for C4: with an empty line amid the local range-query
output, the commit loop raises `IndexError` (`split[0]` on an empty split)
instead of skipping the line; the rest of the report is not produced. -/
theorem info_malformed_line_crashes :
    (findRemoteLocalDiff projBlankLine).2.1.localCommits = ["aaa fix", "", "bbb more"] ∧
    (findRemoteLocalDiff projBlankLine).2.2 = Except.error RepoError.indexError :=
  ⟨rfl, rfl⟩

/-- Counterexample for C9: `printOverview` does not catch
`NoSuchProjectError`; a resolution failure propagates out of it. -/
theorem overview_missing_project_raises :
    printOverview none false = Except.error RepoError.noSuchProject := rfl

/-- C9 (amended): `printLocalInfo` catches the resolution failure and
returns with no output, but `printOverview` propagates it to its caller. -/
theorem resolution_failure_behavior :
    (∀ showAll, printLocalInfo none showAll = Except.ok []) ∧
    (∀ flag, printOverview none flag = Except.error RepoError.noSuchProject) :=
  ⟨fun _ => rfl, fun _ => rfl⟩

/-- Helper: the local-info commit loop succeeds exactly when every line
splits into at least one token. -/
theorem renderCommits_ok_iff (cs : List String) :
    (∃ out, renderCommits cs = Except.ok out) ↔ ∀ c ∈ cs, pySplit c ≠ [] := by
  induction cs with
  | nil => simp [renderCommits]
  | cons c cs ih =>
    constructor
    · rintro ⟨out, hout⟩
      unfold renderCommits at hout
      cases h1 : renderCommit c <;> rw [h1] at hout
      · cases hout
      · cases h2 : renderCommits cs <;> rw [h2] at hout
        · cases hout
        · intro d hd
          rcases List.mem_cons.mp hd with rfl | hd'
          · intro hsp
            unfold renderCommit at h1
            rw [hsp] at h1
            cases h1
          · exact (ih.mp ⟨_, h2⟩) d hd'
    · intro hall
      have hc : pySplit c ≠ [] := hall c (by simp)
      obtain ⟨o, ho⟩ := ih.mpr (fun d hd => hall d (by simp [hd]))
      rcases hsp : pySplit c with _ | ⟨x, xs⟩
      · exact absurd hsp hc
      · exact ⟨[Out.sha (x ++ " "), Out.text (joinSpace xs), Out.nl] ++ o, by
          unfold renderCommits renderCommit
          rw [hsp, ho]⟩

/-- Helper: the overview commit loop succeeds exactly when every line
splits into at least one token. -/
theorem renderOvCommits_ok_iff (cs : List String) :
    (∃ out, renderOvCommits cs = Except.ok out) ↔ ∀ c ∈ cs, pySplit c ≠ [] := by
  induction cs with
  | nil => simp [renderOvCommits]
  | cons c cs ih =>
    constructor
    · rintro ⟨out, hout⟩
      unfold renderOvCommits at hout
      cases h1 : renderOvCommit c <;> rw [h1] at hout
      · cases hout
      · cases h2 : renderOvCommits cs <;> rw [h2] at hout
        · cases hout
        · intro d hd
          rcases List.mem_cons.mp hd with rfl | hd'
          · intro hsp
            unfold renderOvCommit at h1
            rw [hsp] at h1
            cases h1
          · exact (ih.mp ⟨_, h2⟩) d hd'
    · intro hall
      have hc : pySplit c ≠ [] := hall c (by simp)
      obtain ⟨o, ho⟩ := ih.mpr (fun d hd => hall d (by simp [hd]))
      rcases hsp : pySplit c with _ | ⟨x, xs⟩
      · exact absurd hsp hc
      · exact ⟨[Out.text dashIndent, Out.sha (x ++ " "), Out.text (joinSpace xs), Out.nl] ++ o, by
          unfold renderOvCommits renderOvCommit
          rw [hsp, ho]⟩

/-- Helper: the full divergence report renders exactly when both commit
lists consist of lines with at least one token each. -/
theorem renderDiffReport_ok_iff (lc oc : List String) :
    (∃ out, renderDiffReport lc oc = Except.ok out) ↔
      (∀ c ∈ lc, pySplit c ≠ []) ∧ (∀ c ∈ oc, pySplit c ≠ []) := by
  unfold renderDiffReport
  cases h1 : renderCommits lc <;> cases h2 : renderCommits oc
  · constructor
    · rintro ⟨out, hout⟩; cases hout
    · rintro ⟨ha, _⟩
      obtain ⟨o, ho⟩ := (renderCommits_ok_iff lc).mpr ha
      rw [h1] at ho; cases ho
  · constructor
    · rintro ⟨out, hout⟩; cases hout
    · rintro ⟨ha, _⟩
      obtain ⟨o, ho⟩ := (renderCommits_ok_iff lc).mpr ha
      rw [h1] at ho; cases ho
  · constructor
    · rintro ⟨out, hout⟩; cases hout
    · rintro ⟨_, hb⟩
      obtain ⟨o, ho⟩ := (renderCommits_ok_iff oc).mpr hb
      rw [h2] at ho; cases ho
  · constructor
    · intro _
      exact ⟨(renderCommits_ok_iff lc).mp ⟨_, h1⟩, (renderCommits_ok_iff oc).mp ⟨_, h2⟩⟩
    · intro _; exact ⟨_, rfl⟩

/-- C4 (amended): a commit line with no tokens is not skipped — it raises
`IndexError` and aborts the report, in both the divergence and the
overview renderers; a line with at least one token always renders
(hash, then remaining tokens rejoined). The whole divergence report
renders exactly when no queried line is token-free. -/
theorem info_malformed_line_amended :
    (∀ c : String, pySplit c = [] →
       renderCommit c = Except.error RepoError.indexError ∧
       renderOvCommit c = Except.error RepoError.indexError) ∧
    (∀ c h rest, pySplit c = h :: rest →
       renderCommit c = Except.ok [Out.sha (h ++ " "), Out.text (joinSpace rest), Out.nl] ∧
       renderOvCommit c = Except.ok [Out.text dashIndent, Out.sha (h ++ " "),
                                     Out.text (joinSpace rest), Out.nl]) ∧
    (∀ p : Project, (∃ out, (findRemoteLocalDiff p).2.2 = Except.ok out) ↔
       ((∀ c ∈ (findRemoteLocalDiff p).2.1.localCommits, pySplit c ≠ []) ∧
        (∀ c ∈ (findRemoteLocalDiff p).2.1.originCommits, pySplit c ≠ []))) := by
  refine ⟨?_, ?_, ?_⟩
  · intro c hsp
    constructor
    · unfold renderCommit; rw [hsp]
    · unfold renderOvCommit; rw [hsp]
  · intro c h rest hsp
    constructor
    · unfold renderCommit; rw [hsp]
    · unfold renderOvCommit; rw [hsp]
  · intro p
    exact renderDiffReport_ok_iff _ _

/-- Closed instance for C4's amended statement: an empty line errors, a
one-token line renders with empty subject, and the blank-line project's
report indeed fails the all-lines-tokenized test. -/
theorem info_malformed_line_amended_witness :
    renderCommit "" = Except.error RepoError.indexError ∧
    renderCommit "abc123" = Except.ok [Out.sha ("abc123" ++ " "),
                                       Out.text (joinSpace []), Out.nl] ∧
    ¬ (∃ out, (findRemoteLocalDiff projBlankLine).2.2 = Except.ok out) :=
  ⟨(info_malformed_line_amended.1 "" (by rfl)).1,
   (info_malformed_line_amended.2.1 "abc123" "abc123" [] (by rfl)).1,
   fun hex => by
     have h := (info_malformed_line_amended.2.2 projBlankLine).mp hex
     exact (h.1 "" (by decide)) (by rfl)⟩

/-- Helper: `splitWsAux` consumes a whitespace-free prefix into the
accumulator. -/
theorem splitWsAux_consume_token (tok : List Char) (h : ∀ c ∈ tok, pyIsSpace c = false) :
    ∀ (rest acc : List Char), splitWsAux (tok ++ rest) acc = splitWsAux rest (tok.reverse ++ acc) := by
  induction tok with
  | nil => intro rest acc; simp
  | cons c t ih =>
    intro rest acc
    have hc : pyIsSpace c = false := h c (by simp)
    have ht : ∀ x ∈ t, pyIsSpace x = false := fun x hx => h x (by simp [hx])
    simp [splitWsAux, hc, ih ht, List.append_assoc]

/-- Helper: every token produced by `splitWsAux` from a whitespace-free
accumulator is nonempty and whitespace-free. -/
theorem splitWsAux_tokens_wf (l : List Char) :
    ∀ acc : List Char, (∀ c ∈ acc, pyIsSpace c = false) →
      ∀ t ∈ splitWsAux l acc, t ≠ [] ∧ ∀ c ∈ t, pyIsSpace c = false := by
  induction l with
  | nil =>
    intro acc hacc t ht
    by_cases h : acc = []
    · simp [splitWsAux, h] at ht
    · simp [splitWsAux, h] at ht
      subst ht
      refine ⟨by simpa using h, fun c hc => hacc c (by simpa using hc)⟩
  | cons c cs ih =>
    intro acc hacc t ht
    by_cases hsp : pyIsSpace c = true
    · by_cases h : acc = []
      · simp [splitWsAux, hsp, h] at ht
        exact ih [] (by simp) t ht
      · simp [splitWsAux, hsp, h] at ht
        rcases ht with rfl | ht
        · refine ⟨by simpa using h, fun x hx => hacc x (by simpa using hx)⟩
        · exact ih [] (by simp) t ht
    · rw [Bool.not_eq_true] at hsp
      simp [splitWsAux, hsp] at ht
      refine ih (c :: acc) ?_ t ht
      intro x hx
      rcases List.mem_cons.mp hx with rfl | hx'
      · exact hsp
      · exact hacc x hx'

/-- Helper: every token of `splitWs` is nonempty and whitespace-free. -/
theorem splitWs_tokens_wf (l : List Char) :
    ∀ t ∈ splitWs l, t ≠ [] ∧ ∀ c ∈ t, pyIsSpace c = false :=
  splitWsAux_tokens_wf l [] (by simp)

/-- Helper: a whitespace-free prefix cannot contribute to an adjacent
whitespace pair. -/
theorem hasWsRun_spacefree_front (t : List Char) (h : ∀ c ∈ t, pyIsSpace c = false) :
    ∀ rest, hasWsRun (t ++ rest) = hasWsRun rest := by
  induction t with
  | nil => intro rest; rfl
  | cons c t ih =>
    intro rest
    have hc : pyIsSpace c = false := h c (by simp)
    have ht : ∀ x ∈ t, pyIsSpace x = false := fun x hx => h x (by simp [hx])
    rw [List.cons_append]
    cases hX : t ++ rest with
    | nil =>
      rcases List.append_eq_nil.mp hX with ⟨rfl, rfl⟩
      rfl
    | cons x xs =>
      have hstep : hasWsRun (c :: x :: xs) = ((pyIsSpace c && pyIsSpace x) || hasWsRun (x :: xs)) :=
        rfl
      rw [hstep, hc, Bool.false_and, Bool.false_or, ← hX]
      exact ih ht rest

/-- Helper: the head of `joinWs (t :: ts)` is the head of `t`. -/
theorem joinWs_cons_head (t : List Char) (ts : List (List Char)) :
    ∃ z, joinWs (t :: ts) = t ++ z := by
  cases ts with
  | nil => exact ⟨[], by simp [joinWs]⟩
  | cons t' ts' => exact ⟨' ' :: joinWs (t' :: ts'), rfl⟩

/-- Helper: joining nonempty whitespace-free tokens with single spaces
never creates two adjacent whitespace characters. -/
theorem hasWsRun_joinWs (toks : List (List Char))
    (h : ∀ t ∈ toks, t ≠ [] ∧ ∀ c ∈ t, pyIsSpace c = false) :
    hasWsRun (joinWs toks) = false := by
  induction toks with
  | nil => rfl
  | cons t ts ih =>
    cases ts with
    | nil =>
      have hfree := (h t (by simp)).2
      have h2 := hasWsRun_spacefree_front t hfree []
      simpa using h2
    | cons t' ts' =>
      have ht := (h t (by simp)).2
      have hts : ∀ u ∈ t' :: ts', u ≠ [] ∧ ∀ c ∈ u, pyIsSpace c = false :=
        fun u hu => h u (by simp [hu])
      show hasWsRun (t ++ ' ' :: joinWs (t' :: ts')) = false
      rw [hasWsRun_spacefree_front t ht]
      obtain ⟨hne, hfree⟩ := h t' (by simp)
      rcases t' with _ | ⟨c', t''⟩
      · exact absurd rfl hne
      · obtain ⟨z, hz⟩ := joinWs_cons_head (c' :: t'') ts'
        rw [hz]
        show ((pyIsSpace ' ' && pyIsSpace c') || hasWsRun (c' :: (t'' ++ z))) = false
        have hc' : pyIsSpace c' = false := hfree c' (by simp)
        rw [hc']
        have : hasWsRun (c' :: (t'' ++ z)) = false := by
          rw [show (c' :: (t'' ++ z)) = (c' :: t'') ++ z from rfl, ← hz]
          exact ih hts
        rw [this]
        simp

/-- Helper: splitting the single-space join of nonempty whitespace-free
tokens recovers exactly those tokens. -/
theorem splitWs_joinWs (toks : List (List Char))
    (h : ∀ t ∈ toks, t ≠ [] ∧ ∀ c ∈ t, pyIsSpace c = false) :
    splitWs (joinWs toks) = toks := by
  induction toks with
  | nil => rfl
  | cons t ts ih =>
    obtain ⟨hne, hfree⟩ := h t (by simp)
    cases ts with
    | nil =>
      show splitWsAux (joinWs [t]) [] = [t]
      rw [show joinWs [t] = t ++ [] by simp [joinWs]]
      rw [splitWsAux_consume_token t hfree [] []]
      simp [splitWsAux, hne]
    | cons t' ts' =>
      show splitWsAux (t ++ ' ' :: joinWs (t' :: ts')) [] = t :: t' :: ts'
      rw [splitWsAux_consume_token t hfree]
      have hrev : t.reverse ++ [] ≠ [] := by simpa using hne
      show splitWsAux (' ' :: joinWs (t' :: ts')) (t.reverse ++ []) = t :: t' :: ts'
      rw [show splitWsAux (' ' :: joinWs (t' :: ts')) (t.reverse ++ []) =
            (t.reverse ++ []).reverse :: splitWs (joinWs (t' :: ts')) by
        simp [splitWsAux, splitWs, pyIsSpace, hne]]
      rw [ih (fun u hu => h u (by simp [hu]))]
      simp

/-- Helper: splitting a line made of a whitespace-free hash, one space and
a subject yields the hash followed by the subject's tokens. -/
theorem splitWs_hash_line (hash subject : List Char)
    (hne : hash ≠ []) (hfree : ∀ c ∈ hash, pyIsSpace c = false) :
    splitWs (hash ++ ' ' :: subject) = hash :: splitWs subject := by
  show splitWsAux (hash ++ ' ' :: subject) [] = hash :: splitWs subject
  rw [splitWsAux_consume_token hash hfree]
  have hrev : hash.reverse ++ [] ≠ [] := by simpa using hne
  show splitWsAux (' ' :: subject) (hash.reverse ++ []) = hash :: splitWs subject
  rw [show splitWsAux (' ' :: subject) (hash.reverse ++ []) =
        (hash.reverse ++ []).reverse :: splitWs subject by
    simp [splitWsAux, splitWs, pyIsSpace, hne]]
  simp

/-- Helper: `joinSpace` over `String.mk` of tokens is `String.mk` of
`joinWs`. -/
theorem joinSpace_map_mk (toks : List (List Char)) :
    joinSpace (toks.map String.mk) = String.mk (joinWs toks) := by
  induction toks with
  | nil => rfl
  | cons t ts ih =>
    cases ts with
    | nil => rfl
    | cons t' ts' =>
      show String.mk t ++ " " ++ joinSpace ((t' :: ts').map String.mk) =
        String.mk (t ++ ' ' :: joinWs (t' :: ts'))
      rw [ih]
      show String.mk ((t ++ [' ']) ++ joinWs (t' :: ts')) =
        String.mk (t ++ ' ' :: joinWs (t' :: ts'))
      rw [List.append_assoc]
      rfl

/-- C10: a rendered commit subject is the line's tokens after the first,
rejoined with single spaces (in both renderers); a subject containing two
adjacent whitespace characters therefore renders changed, while a subject
that is a single-space join of nonempty whitespace-free words (the
"only single spaces" shape) renders unchanged. -/
theorem commit_subject_whitespace :
    (∀ hash subject : List Char, hash ≠ [] → (∀ c ∈ hash, pyIsSpace c = false) →
       renderCommit (String.mk (hash ++ ' ' :: subject)) =
         Except.ok [Out.sha (String.mk hash ++ " "),
                    Out.text (String.mk (joinWs (splitWs subject))), Out.nl] ∧
       renderOvCommit (String.mk (hash ++ ' ' :: subject)) =
         Except.ok [Out.text dashIndent, Out.sha (String.mk hash ++ " "),
                    Out.text (String.mk (joinWs (splitWs subject))), Out.nl]) ∧
    (∀ subject : List Char, hasWsRun subject = true →
       joinWs (splitWs subject) ≠ subject) ∧
    (∀ toks : List (List Char), (∀ t ∈ toks, t ≠ [] ∧ ∀ c ∈ t, pyIsSpace c = false) →
       joinWs (splitWs (joinWs toks)) = joinWs toks) := by
  refine ⟨?_, ?_, ?_⟩
  · intro hash subject hne hfree
    have hsp : pySplit (String.mk (hash ++ ' ' :: subject)) =
        String.mk hash :: (splitWs subject).map String.mk := by
      show ((splitWs (hash ++ ' ' :: subject)).map String.mk) = _
      rw [splitWs_hash_line hash subject hne hfree]
      rfl
    constructor
    · unfold renderCommit
      rw [hsp]
      show Except.ok [Out.sha (String.mk hash ++ " "),
                      Out.text (joinSpace ((splitWs subject).map String.mk)), Out.nl] =
        Except.ok [Out.sha (String.mk hash ++ " "),
                   Out.text (String.mk (joinWs (splitWs subject))), Out.nl]
      rw [joinSpace_map_mk]
    · unfold renderOvCommit
      rw [hsp]
      show Except.ok [Out.text dashIndent, Out.sha (String.mk hash ++ " "),
                      Out.text (joinSpace ((splitWs subject).map String.mk)), Out.nl] =
        Except.ok [Out.text dashIndent, Out.sha (String.mk hash ++ " "),
                   Out.text (String.mk (joinWs (splitWs subject))), Out.nl]
      rw [joinSpace_map_mk]
  · intro subject hrun heq
    have h0 : hasWsRun (joinWs (splitWs subject)) = false :=
      hasWsRun_joinWs (splitWs subject) (splitWs_tokens_wf subject)
    rw [heq, hrun] at h0
    cases h0
  · intro toks htoks
    rw [splitWs_joinWs toks htoks]

/-- Closed instance for C10: a double space inside `x  y` collapses while
the single-spaced `x y` round-trips. -/
theorem commit_subject_whitespace_witness :
    renderCommit (String.mk (['a'] ++ ' ' :: ['x', ' ', ' ', 'y'])) =
      Except.ok [Out.sha (String.mk ['a'] ++ " "),
                 Out.text (String.mk (joinWs (splitWs ['x', ' ', ' ', 'y']))), Out.nl] ∧
    joinWs (splitWs ['x', ' ', ' ', 'y']) ≠ ['x', ' ', ' ', 'y'] ∧
    joinWs (splitWs (joinWs [['x'], ['y']])) = joinWs [['x'], ['y']] :=
  ⟨(commit_subject_whitespace.1 ['a'] ['x', ' ', ' ', 'y'] (by decide) (by decide)).1,
   commit_subject_whitespace.2.1 ['x', ' ', ' ', 'y'] (by decide),
   commit_subject_whitespace.2.2 [['x'], ['y']] (by decide)⟩

/-- Helper: a foldl that appends a block per element is a flatMap. -/
theorem foldl_append_flat {α β : Type} (g : α → List β) (l : List α) :
    ∀ acc : List β, l.foldl (fun a x => a ++ g x) acc = acc ++ l.flatMap g := by
  induction l with
  | nil => intro acc; simp
  | cons x xs ih => intro acc; simp [ih, List.append_assoc]

/-- Helper: the `all` list is the per-project branch lists flattened in
project order. -/
theorem overviewBranches_eq (projs : List OvProject) (flag : Bool) :
    overviewBranches projs flag = projs.flatMap (fun p => projBranchList p flag) := by
  have h := foldl_append_flat (fun p => projBranchList p flag) projs []
  simpa [overviewBranches] using h

/-- Helper: membership in a project's branch list without the `-b`
restriction. -/
theorem mem_projBranchList_false (p : OvProject) (b : OvBranch) :
    b ∈ projBranchList p false ↔ ∃ n ∈ p.branchNames, p.uploadable n = some b := by
  unfold projBranchList
  simp [List.mem_filterMap, List.mem_map]

/-- Helper: membership in a project's branch list with the `-b`
restriction. -/
theorem mem_projBranchList_true (p : OvProject) (b : OvBranch) :
    b ∈ projBranchList p true ↔
      (∃ n ∈ p.branchNames, p.uploadable n = some b) ∧
      p.info.currentBranch = some b.name := by
  unfold projBranchList
  simp [List.mem_filter, List.mem_filterMap, List.mem_map]

/-- C6: with `-b`, the overview contains exactly the uploadable branches
whose name equals the enumerating project's current branch; without it,
exactly every branch for which `GetUploadableBranch` returns a value. -/
theorem overview_uploadable_filter (projs : List OvProject) (b : OvBranch) :
    (b ∈ overviewBranches projs true ↔
       ∃ p ∈ projs, (∃ n ∈ p.branchNames, p.uploadable n = some b) ∧
         p.info.currentBranch = some b.name) ∧
    (b ∈ overviewBranches projs false ↔
       ∃ p ∈ projs, ∃ n ∈ p.branchNames, p.uploadable n = some b) := by
  constructor
  · rw [overviewBranches_eq, List.mem_flatMap]
    constructor
    · rintro ⟨p, hp, hb⟩
      exact ⟨p, hp, (mem_projBranchList_true p b).mp hb⟩
    · rintro ⟨p, hp, hb⟩
      exact ⟨p, hp, (mem_projBranchList_true p b).mpr hb⟩
  · rw [overviewBranches_eq, List.mem_flatMap]
    constructor
    · rintro ⟨p, hp, hb⟩
      exact ⟨p, hp, (mem_projBranchList_false p b).mp hb⟩
    · rintro ⟨p, hp, hb⟩
      exact ⟨p, hp, (mem_projBranchList_false p b).mpr hb⟩

/-- C7: with no resolved projects, or when no branch registry entry yields
an uploadable branch, `printOverview` returns normally with no output at
all (no heading, no project headers). -/
theorem overview_empty_skips (flag : Bool) (projs : List OvProject)
    (h : ∀ p ∈ projs, ∀ n ∈ p.branchNames, p.uploadable n = none) :
    printOverview (some projs) flag = Except.ok [] ∧
    printOverview (some ([] : List OvProject)) flag = Except.ok [] := by
  have hall : overviewBranches projs flag = [] := by
    rw [overviewBranches_eq]
    rw [List.flatMap_eq_nil_iff]
    intro p hp
    unfold projBranchList
    have hfm : (p.branchNames.map p.uploadable).filterMap id = [] := by
      rw [List.filterMap_eq_nil_iff]
      intro o ho
      rcases List.mem_map.mp ho with ⟨n, hn, rfl⟩
      exact h p hp n hn
    cases flag <;> simp [hfm]
  constructor
  · unfold printOverview
    simp [hall]
  · rfl

/-- A project whose branch registry never yields an uploadable branch. -/
def noUpProject : OvProject where
  info := { pid := 0, relpath := "a", currentBranch := none }
  branchNames := ["x"]
  uploadable := fun _ => none

/-- Closed instance for C7: one project, no uploadable branch, empty
report. -/
theorem overview_empty_skips_witness :
    printOverview (some [noUpProject]) false = Except.ok [] :=
  (overview_empty_skips false [noUpProject]
    (by
      intro p hp n hn
      rcases List.mem_singleton.mp hp with rfl
      rfl)).1

/-- Helper: `headtexts` distributes over append. -/
theorem headtexts_append (a b : List Out) :
    headtexts (a ++ b) = headtexts a ++ headtexts b :=
  List.filterMap_append a b _

/-- Helper: a newline event is not a project header. -/
theorem headtexts_nl_cons (l : List Out) : headtexts (Out.nl :: l) = headtexts l := rfl

/-- Helper: a heading event is not a project header. -/
theorem headtexts_heading_cons (s : String) (l : List Out) :
    headtexts (Out.heading s :: l) = headtexts l := rfl

/-- Helper: a single overview commit line renders no project header. -/
theorem headtexts_renderOvCommit (c : String) (o : List Out)
    (h : renderOvCommit c = Except.ok o) : headtexts o = [] := by
  unfold renderOvCommit at h
  cases hsp : pySplit c <;> rw [hsp] at h
  · cases h
  · cases h
    rfl

/-- Helper: a branch's rendered commit list contains no project header. -/
theorem headtexts_renderOvCommits (cs : List String) :
    ∀ o : List Out, renderOvCommits cs = Except.ok o → headtexts o = [] := by
  induction cs with
  | nil =>
    intro o h
    cases h
    rfl
  | cons c cs ih =>
    intro o h
    unfold renderOvCommits at h
    cases h1 : renderOvCommit c <;> rw [h1] at h
    · cases h
    · cases h2 : renderOvCommits cs <;> rw [h2] at h
      · cases h
      · cases h
        rw [headtexts_append, headtexts_renderOvCommit _ _ h1, ih _ h2]
        rfl

/-- Helper: the project headers emitted by the overview loop are exactly
`headerSeq` of the tracker and branch list. -/
theorem headtexts_ovLoop (branches : List OvBranch) :
    ∀ (tracker : Option ProjInfo) (out : List Out),
      ovLoop tracker branches = Except.ok out → headtexts out = headerSeq tracker branches := by
  induction branches with
  | nil =>
    intro tracker out h
    cases h
    rfl
  | cons b rest ih =>
    intro tracker out h
    simp only [ovLoop] at h
    cases h1 : renderOvCommits b.commits <;> rw [h1] at h
    · cases h
    · cases h2 : ovLoop (some b.project) rest <;> rw [h2] at h
      · cases h
      · cases h
        simp only [headtexts_append]
        rw [headtexts_renderOvCommits _ _ h1, ih _ _ h2]
        by_cases hc : tracker ≠ some b.project <;>
          simp [headerSeq, hc, headtexts]

/-- Helper: inside a block owned by one project no further header is
emitted. -/
theorem headerSeq_within_block (info : ProjInfo) (bl : List OvBranch)
    (h : ∀ b ∈ bl, b.project = info) (rest : List OvBranch) :
    headerSeq (some info) (bl ++ rest) = headerSeq (some info) rest := by
  induction bl with
  | nil => rfl
  | cons b bs ih =>
    have hb : b.project = info := h b (by simp)
    rw [List.cons_append]
    rw [show headerSeq (some info) (b :: (bs ++ rest)) =
          (if (some info : Option ProjInfo) ≠ some b.project then [b.project.relpath] else []) ++
          headerSeq (some b.project) (bs ++ rest) from rfl]
    rw [hb]
    rw [if_neg (by simp : ¬ ((some info : Option ProjInfo) ≠ some info)), List.nil_append]
    exact ih (fun x hx => h x (by simp [hx]))

/-- Helper: a branch in a project's branch list comes from
`GetUploadableBranch` on a registry key. -/
theorem mem_projBranchList_source (p : OvProject) (flag : Bool) (b : OvBranch)
    (hb : b ∈ projBranchList p flag) : ∃ n ∈ p.branchNames, p.uploadable n = some b := by
  cases flag
  · exact (mem_projBranchList_false p b).mp hb
  · exact ((mem_projBranchList_true p b).mp hb).1

/-- Helper: over flattened per-project blocks with consistent ownership
and distinct project identities, `headerSeq` lists exactly the surviving
projects' relpaths in input order. -/
theorem headerSeq_blocks (flag : Bool) (projs : List OvProject) :
    ∀ tracker : Option ProjInfo,
      (∀ p ∈ projs, ∀ n ∈ p.branchNames, ∀ b, p.uploadable n = some b → b.project = p.info) →
      projs.Pairwise (fun p q => p.info.pid ≠ q.info.pid) →
      (∀ q ∈ projs, ∀ j, tracker = some j → j.pid ≠ q.info.pid) →
      headerSeq tracker (projs.flatMap (fun p => projBranchList p flag)) =
        (projs.filter (fun p => !(projBranchList p flag).isEmpty)).map
          (fun p => p.info.relpath) := by
  induction projs with
  | nil => intro tracker _ _ _; rfl
  | cons p ps ih =>
    intro tracker hown hpw htr
    have hown2 : ∀ q ∈ ps, ∀ n ∈ q.branchNames, ∀ b, q.uploadable n = some b → b.project = q.info :=
      fun q hq => hown q (by simp [hq])
    have hpwh := (List.pairwise_cons.mp hpw).1
    have hpw2 := (List.pairwise_cons.mp hpw).2
    rw [List.flatMap_cons]
    have hownp : ∀ b ∈ projBranchList p flag, b.project = p.info := by
      intro b hb
      obtain ⟨n, hn, hu⟩ := mem_projBranchList_source p flag b hb
      exact hown p (by simp) n hn b hu
    cases hbl : projBranchList p flag with
    | nil =>
      rw [List.nil_append]
      rw [ih tracker hown2 hpw2 (fun q hq j hj => htr q (by simp [hq]) j hj)]
      rw [List.filter_cons]
      simp [hbl]
    | cons b bs =>
      have hb0 : b.project = p.info := hownp b (by rw [hbl]; simp)
      have hbs : ∀ x ∈ bs, x.project = p.info := fun x hx => hownp x (by rw [hbl]; simp [hx])
      have hcond : tracker ≠ some b.project := by
        intro hEq
        have hj := htr p (by simp) b.project hEq
        rw [hb0] at hj
        exact hj rfl
      rw [List.cons_append]
      rw [show headerSeq tracker (b :: (bs ++ ps.flatMap (fun q => projBranchList q flag))) =
            (if tracker ≠ some b.project then [b.project.relpath] else []) ++
            headerSeq (some b.project) (bs ++ ps.flatMap (fun q => projBranchList q flag))
          from rfl]
      rw [if_pos hcond, hb0]
      rw [headerSeq_within_block p.info bs hbs]
      have htr2 : ∀ q ∈ ps, ∀ j, (some p.info : Option ProjInfo) = some j →
          j.pid ≠ q.info.pid := by
        intro q hq j hj
        injection hj with hj2
        rw [← hj2]
        exact hpwh q hq
      rw [ih (some p.info) hown2 hpw2 htr2]
      rw [List.filter_cons]
      simp [hbl]

/-- C8: the overview's flattened branch sequence is the per-project blocks
in input project order (branches in enumeration order, contiguous per
project), and a successful rendering emits exactly one project header per
surviving project, in input order, switching whenever the owning project
changes — given that uploadable branches back-reference their enumerating
project and project identities are distinct. -/
theorem overview_order_and_headers (projs : List OvProject) (flag : Bool)
    (hown : ∀ p ∈ projs, ∀ n ∈ p.branchNames, ∀ b, p.uploadable n = some b → b.project = p.info)
    (hpw : projs.Pairwise (fun p q => p.info.pid ≠ q.info.pid)) :
    overviewBranches projs flag = projs.flatMap (fun p => projBranchList p flag) ∧
    ∀ out, printOverview (some projs) flag = Except.ok out →
      headtexts out =
        (projs.filter (fun p => !(projBranchList p flag).isEmpty)).map
          (fun p => p.info.relpath) := by
  refine ⟨overviewBranches_eq projs flag, ?_⟩
  intro out hout
  simp only [printOverview] at hout
  by_cases hall : overviewBranches projs flag = []
  · rw [if_pos hall] at hout
    cases hout
    have hblocks := List.flatMap_eq_nil_iff.mp ((overviewBranches_eq projs flag) ▸ hall)
    have hfil : projs.filter (fun p => !(projBranchList p flag).isEmpty) = [] := by
      rw [List.filter_eq_nil_iff]
      intro p hp
      simp [hblocks p hp]
    rw [hfil]
    rfl
  · rw [if_neg hall] at hout
    cases h1 : ovLoop none (overviewBranches projs flag) <;> rw [h1] at hout
    · cases hout
    · cases hout
      rw [headtexts_nl_cons, headtexts_heading_cons, headtexts_ovLoop _ _ _ h1]
      rw [overviewBranches_eq]
      exact headerSeq_blocks flag projs none hown hpw (fun _ _ _ hj => by cases hj)

/-- Demo branch of the first demo project. -/
def demoBranchF : OvBranch where
  name := "f"
  project := { pid := 0, relpath := "p1", currentBranch := some "f" }
  commits := []
  date := "2023-01-01"

/-- Demo branch of the second demo project. -/
def demoBranchG : OvBranch where
  name := "g"
  project := { pid := 1, relpath := "p2", currentBranch := none }
  commits := ["abc fix"]
  date := "2024-02-02"

/-- First demo project: one uploadable branch. -/
def demoProj1 : OvProject where
  info := { pid := 0, relpath := "p1", currentBranch := some "f" }
  branchNames := ["f"]
  uploadable := fun n => if n = "f" then some demoBranchF else none

/-- Second demo project: two registry keys, one uploadable branch. -/
def demoProj2 : OvProject where
  info := { pid := 1, relpath := "p2", currentBranch := none }
  branchNames := ["g", "h"]
  uploadable := fun n => if n = "g" then some demoBranchG else none

/-- The demo project list. -/
def demoProjs : List OvProject := [demoProj1, demoProj2]

/-- The overview output of the demo run. -/
def demoOvOut : List Out :=
  match printOverview (some demoProjs) false with
  | Except.ok o => o
  | Except.error _ => []

/-- Closed instance for C8: two projects, one header each, in input
order. -/
theorem overview_order_and_headers_witness :
    headtexts demoOvOut = ["p1", "p2"] := by
  have hown : ∀ p ∈ demoProjs, ∀ n ∈ p.branchNames, ∀ b,
      p.uploadable n = some b → b.project = p.info := by
    intro p hp n hn b hb
    rcases List.mem_cons.mp hp with rfl | hp2
    · rcases List.mem_singleton.mp hn with rfl
      rw [show demoProj1.uploadable "f" = some demoBranchF from rfl] at hb
      cases hb
      rfl
    · rcases List.mem_singleton.mp hp2 with rfl
      rcases List.mem_cons.mp hn with rfl | hn2
      · rw [show demoProj2.uploadable "g" = some demoBranchG from rfl] at hb
        cases hb
        rfl
      · rcases List.mem_singleton.mp hn2 with rfl
        rw [show demoProj2.uploadable "h" = none from rfl] at hb
        cases hb
  have hpw : demoProjs.Pairwise (fun p q => p.info.pid ≠ q.info.pid) := by
    simp [demoProjs, demoProj1, demoProj2]
  have h2 := (overview_order_and_headers demoProjs false hown hpw).2 demoOvOut (by rfl)
  rw [h2]
  rfl
